import Mathlib

/-!
Verification of the PlanetSim field-synthesis core (`src/main.rs`).

The Rust code works on `f32`/`f64` values; here machine reals are modelled by
`ℚ`.  The irrational primitives the code relies on (square root inside
`Vec3::distance`/`normalize`, `sin`, `π`, the FBM Perlin noise function, and
bevy's srgb→linear colour conversion) have no exact rational counterpart, so
they are abstracted as fields of a `Prims` parameter structure; every theorem
is stated for an arbitrary `Prims`, and witnesses instantiate it with concrete
total functions.
-/

namespace PlanetSim

/-- Model of bevy `Vec3` (a triple of machine floats). -/
structure Vec3 where
  x : ℚ
  y : ℚ
  z : ℚ
deriving DecidableEq

def Vec3.add (a c : Vec3) : Vec3 := ⟨a.x + c.x, a.y + c.y, a.z + c.z⟩

def Vec3.sub (a c : Vec3) : Vec3 := ⟨a.x - c.x, a.y - c.y, a.z - c.z⟩

/-- `v * s` for a scalar `s` (bevy scalar multiplication). -/
def Vec3.scale (s : ℚ) (a : Vec3) : Vec3 := ⟨s * a.x, s * a.y, s * a.z⟩

/-- `Vec3::dot`. -/
def Vec3.dot (a c : Vec3) : ℚ := a.x * c.x + a.y * c.y + a.z * c.z

/-- `Vec3::length_squared`. -/
def Vec3.lengthSq (a : Vec3) : ℚ := a.x * a.x + a.y * a.y + a.z * a.z

/-- The irrational machine primitives, abstracted. `sqrt` stands for the
square root used inside `Vec3::length`/`distance`/`normalize`, `sin` for
`f32::sin`, `pi` for `std::f32::consts::PI`, `noise` for
`Fbm::<Perlin>::get` on a 3-coordinate input, and `s2l` for the per-channel
srgb→linear conversion of `Color::to_linear`. -/
structure Prims where
  sqrt : ℚ → ℚ
  sin : ℚ → ℚ
  pi : ℚ
  noise : ℚ → ℚ → ℚ → ℚ
  s2l : ℚ → ℚ

/-- `Vec3::normalize`: divide by the length (`sq` is the sqrt primitive). -/
def Vec3.normalize (sq : ℚ → ℚ) (v : Vec3) : Vec3 :=
  ⟨v.x / sq v.lengthSq, v.y / sq v.lengthSq, v.z / sq v.lengthSq⟩

/-- `Vec3::distance`: square root of the squared chordal distance. -/
def Vec3.dist (sq : ℚ → ℚ) (a c : Vec3) : ℚ := sq ((a.sub c).lengthSq)

/-- `f32::clamp`. -/
def clampQ (x lo hi : ℚ) : ℚ := min (max x lo) hi

/-- `f32::MAX`, exactly `(2^24 - 1) * 2^104`, written as a literal so that
kernel evaluation of concrete inputs stays cheap (see `f32MAX_eq`). -/
def f32MAX : ℚ := 340282346638528859811704183484516925440

theorem f32MAX_eq : f32MAX = (2 ^ 24 - 1) * 2 ^ 104 := by
  unfold f32MAX
  norm_num

inductive PlateType where
  | Oceanic
  | Continental
deriving DecidableEq

structure Plate where
  center : Vec3
  plate_type : PlateType
  drift_dir : Vec3
deriving DecidableEq

/-! ## The running top-2 minimum loop of `apply_tectonic_deformation`

State of the mutable variables `dist_1`, `dist_2`, `p1_idx`, `p2_idx`. -/

structure Top2 where
  dist1 : ℚ
  dist2 : ℚ
  p1 : Nat
  p2 : Nat
deriving DecidableEq

/-- One iteration of the `for (i, plate) in plates.iter().enumerate()` loop. -/
def top2Step (s : Top2) (i : Nat) (d : ℚ) : Top2 :=
  if d < s.dist1 then ⟨d, s.dist1, i, s.p1⟩
  else if d < s.dist2 then ⟨s.dist1, d, s.p1, i⟩
  else s

/-- The whole loop, starting at index `i` over the remaining distances. -/
def top2Go : Nat → List ℚ → Top2 → Top2
  | _, [], s => s
  | i, d :: rest, s => top2Go (i + 1) rest (top2Step s i d)

/-- The loop as the code runs it: indices from 0, both distances starting at
`f32::MAX` and both indices at 0. -/
def findTop2 (ds : List ℚ) : Top2 := top2Go 0 ds ⟨f32MAX, f32MAX, 0, 0⟩

/-- Invariant of the top-2 loop after the first `n` distances have been
processed (meaningful for `2 ≤ n`): the two recorded indices are distinct
in-range indices carrying their own distances, ordered, and no other
processed distance is below the second one. -/
def Good (ds : List ℚ) (n : Nat) (s : Top2) : Prop :=
  s.p1 < n ∧ s.p2 < n ∧ s.p1 ≠ s.p2 ∧
  (∀ h : s.p1 < ds.length, s.dist1 = ds.get ⟨s.p1, h⟩) ∧
  (∀ h : s.p2 < ds.length, s.dist2 = ds.get ⟨s.p2, h⟩) ∧
  s.dist1 ≤ s.dist2 ∧
  (∀ j, ∀ hj : j < ds.length, j < n → j ≠ s.p1 → j ≠ s.p2 →
    s.dist2 ≤ ds.get ⟨j, hj⟩)

theorem good_step (ds : List ℚ) (n : Nat) (s : Top2) (hn : n < ds.length)
    (hg : Good ds n s) :
    Good ds (n + 1) (top2Step s n (ds.get ⟨n, hn⟩)) := by
  obtain ⟨h1, h2, h3, h4, h5, h6, h7⟩ := hg
  by_cases c1 : ds.get ⟨n, hn⟩ < s.dist1
  · have e : top2Step s n (ds.get ⟨n, hn⟩) = ⟨ds.get ⟨n, hn⟩, s.dist1, n, s.p1⟩ := by
      unfold top2Step
      rw [if_pos c1]
    rw [e]
    refine ⟨Nat.lt_succ_self n, Nat.lt_succ_of_lt h1, (Nat.ne_of_lt h1).symm,
      fun h => rfl, fun h => h4 h, le_of_lt c1, ?_⟩
    intro j hj hjn hne1 hne2
    have hne1n : j ≠ n := hne1
    have hne2n : j ≠ s.p1 := hne2
    have hjn2 : j < n := by
      have hjn3 : j < n + 1 := hjn
      omega
    by_cases hp2 : j = s.p2
    · subst hp2
      exact (h5 hj) ▸ h6
    · exact le_trans h6 (h7 j hj hjn2 hne2n hp2)
  · by_cases c2 : ds.get ⟨n, hn⟩ < s.dist2
    · have e : top2Step s n (ds.get ⟨n, hn⟩) = ⟨s.dist1, ds.get ⟨n, hn⟩, s.p1, n⟩ := by
        unfold top2Step
        rw [if_neg c1, if_pos c2]
      rw [e]
      refine ⟨Nat.lt_succ_of_lt h1, Nat.lt_succ_self n, Nat.ne_of_lt h1,
        fun h => h4 h, fun h => rfl, le_of_not_lt c1, ?_⟩
      intro j hj hjn hne1 hne2
      have hne1n : j ≠ s.p1 := hne1
      have hne2n : j ≠ n := hne2
      have hjn2 : j < n := by
        have hjn3 : j < n + 1 := hjn
        omega
      by_cases hp2 : j = s.p2
      · subst hp2
        exact (h5 hj) ▸ le_of_lt c2
      · exact le_trans (le_of_lt c2) (h7 j hj hjn2 hne1n hp2)
    · have e : top2Step s n (ds.get ⟨n, hn⟩) = s := by
        unfold top2Step
        rw [if_neg c1, if_neg c2]
      rw [e]
      refine ⟨Nat.lt_succ_of_lt h1, Nat.lt_succ_of_lt h2, h3, h4, h5, h6, ?_⟩
      intro j hj hjn hne1 hne2
      by_cases hjn2 : j = n
      · subst hjn2
        exact le_of_not_lt c2
      · have hjn3 : j < n + 1 := hjn
        exact h7 j hj (by omega) hne1 hne2

theorem drop_cons_get {α : Type} :
    ∀ (l : List α) (n : Nat) (d : α) (t : List α),
      l.drop n = d :: t →
      ∃ h : n < l.length, l.get ⟨n, h⟩ = d ∧ l.drop (n + 1) = t := by
  intro l
  induction l with
  | nil =>
    intro n d t h
    rw [List.drop_nil] at h
    cases h
  | cons a as ih =>
    intro n d t h
    cases n with
    | zero =>
      rw [List.drop_zero] at h
      injection h with e1 e2
      exact ⟨Nat.succ_pos _, e1, by simpa using e2⟩
    | succ m =>
      have h2 : as.drop m = d :: t := h
      obtain ⟨hb, hget, hdrop⟩ := ih m d t h2
      exact ⟨Nat.succ_lt_succ hb, hget, hdrop⟩

theorem top2Go_good (ds : List ℚ) :
    ∀ (rest : List ℚ) (n : Nat) (s : Top2),
      Good ds n s → n ≤ ds.length → ds.drop n = rest →
      Good ds ds.length (top2Go n rest s) := by
  intro rest
  induction rest with
  | nil =>
    intro n s hg hle hdrop
    have hlen : (ds.drop n).length = 0 := by rw [hdrop]; rfl
    rw [List.length_drop] at hlen
    have : n = ds.length := by omega
    rw [top2Go, ← this]
    exact hg
  | cons d t ih =>
    intro n s hg hle hdrop
    obtain ⟨hb, hget, hdrop2⟩ := drop_cons_get ds n d t hdrop
    rw [top2Go, ← hget]
    exact ih (n + 1) (top2Step s n (ds.get ⟨n, hb⟩)) (good_step ds n s hb hg) hb hdrop2

theorem good_base (d0 d1 : ℚ) (rest : List ℚ) (h0 : d0 < f32MAX) (h1 : d1 < f32MAX) :
    Good (d0 :: d1 :: rest) 2
      (top2Step (top2Step ⟨f32MAX, f32MAX, 0, 0⟩ 0 d0) 1 d1) := by
  have e1 : top2Step ⟨f32MAX, f32MAX, 0, 0⟩ 0 d0 = ⟨d0, f32MAX, 0, 0⟩ := by
    simp [top2Step, h0]
  rw [e1]
  by_cases hc : d1 < d0
  · have e2 : top2Step ⟨d0, f32MAX, 0, 0⟩ 1 d1 = ⟨d1, d0, 1, 0⟩ := by
      unfold top2Step
      rw [if_pos hc]
    rw [e2]
    refine ⟨Nat.one_lt_two, Nat.zero_lt_two, one_ne_zero, fun h => rfl, fun h => rfl,
      le_of_lt hc, ?_⟩
    intro j hj hj2 hne1 hne0
    have ha : j ≠ 1 := hne1
    have hb : j ≠ 0 := hne0
    have hc2 : j < 2 := hj2
    omega
  · have e2 : top2Step ⟨d0, f32MAX, 0, 0⟩ 1 d1 = ⟨d0, d1, 0, 1⟩ := by
      unfold top2Step
      rw [if_neg hc, if_pos h1]
    rw [e2]
    refine ⟨Nat.zero_lt_two, Nat.one_lt_two, zero_ne_one, fun h => rfl, fun h => rfl,
      le_of_not_lt hc, ?_⟩
    intro j hj hj2 hne0 hne1
    have ha : j ≠ 0 := hne0
    have hb : j ≠ 1 := hne1
    have hc2 : j < 2 := hj2
    omega

theorem findTop2_good (ds : List ℚ) (hlen : 2 ≤ ds.length)
    (hlt : ∀ j, ∀ hj : j < ds.length, ds.get ⟨j, hj⟩ < f32MAX) :
    Good ds ds.length (findTop2 ds) := by
  match ds, hlen with
  | d0 :: d1 :: rest, _ =>
    have h0 : d0 < f32MAX := hlt 0 (by simp)
    have h1 : d1 < f32MAX := hlt 1 (by simp)
    have e : findTop2 (d0 :: d1 :: rest) =
        top2Go 2 rest (top2Step (top2Step ⟨f32MAX, f32MAX, 0, 0⟩ 0 d0) 1 d1) := rfl
    rw [e]
    exact top2Go_good (d0 :: d1 :: rest) rest 2 _
      (good_base d0 d1 rest h0 h1) (by simp) rfl

/-- Bound on the recorded indices, valid for any nonempty distance list
(also when only one element was processed and the invariant `Good` is not
yet available). -/
theorem top2Go_bound :
    ∀ (rest : List ℚ) (i : Nat) (s : Top2) (b : Nat),
      s.p1 < b → s.p2 < b → i + rest.length ≤ b →
      (top2Go i rest s).p1 < b ∧ (top2Go i rest s).p2 < b := by
  intro rest
  induction rest with
  | nil =>
    intro i s b h1 h2 hle
    exact ⟨h1, h2⟩
  | cons d t ih =>
    intro i s b h1 h2 hle
    have hib : i < b := by
      simp only [List.length_cons] at hle
      omega
    refine ih (i + 1) (top2Step s i d) b ?_ ?_ ?_
    · unfold top2Step
      split_ifs <;> first | exact hib | exact h1
    · unfold top2Step
      split_ifs <;> first | exact h1 | exact hib | exact h2
    · simp only [List.length_cons] at hle
      omega

theorem findTop2_bound (ds : List ℚ) (hne : ds ≠ []) :
    (findTop2 ds).p1 < ds.length ∧ (findTop2 ds).p2 < ds.length := by
  have hpos : 0 < ds.length := List.length_pos.mpr hne
  exact top2Go_bound ds 0 ⟨f32MAX, f32MAX, 0, 0⟩ ds.length hpos hpos (by omega)

/-! ## Constants and the per-point synthesis of `apply_tectonic_deformation` -/

def RADIUS : ℚ := 30

def NUM_PLATES : Nat := 15

def warp_strength : ℚ := 15 / 100

/-- The domain-warp offset: one noise sample per axis at the 1.5-scaled
coordinates, with cyclically permuted axis order, times `warp_strength`. -/
def warp_noise (P : Prims) (v : Vec3) : Vec3 :=
  Vec3.scale warp_strength
    ⟨P.noise (v.x * (3 / 2)) (v.y * (3 / 2)) (v.z * (3 / 2)),
     P.noise (v.y * (3 / 2)) (v.z * (3 / 2)) (v.x * (3 / 2)),
     P.noise (v.z * (3 / 2)) (v.x * (3 / 2)) (v.y * (3 / 2))⟩

/-- `let warped_v = (v + warp_noise).normalize();`. -/
def warped_v (P : Prims) (v : Vec3) : Vec3 :=
  Vec3.normalize P.sqrt (Vec3.add v (warp_noise P v))

/-- The list of chordal distances from the warped point to each plate center,
in plate order; the loop runs over exactly these values. -/
def plateDists (P : Prims) (plates : List Plate) (w : Vec3) : List ℚ :=
  plates.map (fun p => Vec3.dist P.sqrt w p.center)

/-- The top-2 state after the nearest-plate search for query point `v`. -/
def nearestTwo (P : Prims) (plates : List Plate) (v : Vec3) : Top2 :=
  findTop2 (plateDists P plates (warped_v P v))

/-- Base elevation: `0.12` for a continental owner, `-0.35` for oceanic. -/
def base_height (t : PlateType) : ℚ :=
  if t = PlateType.Continental then 12 / 100 else -(35 / 100)

/-- Step 3 of the Rust code: beach / shelf / inter-continental /
inter-oceanic blending by the ordered type pair (the four cases are
exhaustive, so exactly one applies). -/
def shore_adjust (t1 t2 : PlateType) (bd h : ℚ) : ℚ :=
  match t1, t2 with
  | PlateType.Continental, PlateType.Oceanic =>
      let beach_factor := clampQ (bd / (2 / 10)) 0 1
      h * beach_factor - (1 - beach_factor) * (5 / 100)
  | PlateType.Oceanic, PlateType.Continental =>
      let shelf_factor := clampQ (bd / (25 / 100)) 0 1
      h * shelf_factor - (1 - shelf_factor) * (1 / 10)
  | PlateType.Continental, PlateType.Continental =>
      let mountain_factor := clampQ (bd / (1 / 10)) 0 1
      h * mountain_factor + (1 - mountain_factor) * (3 / 10)
  | PlateType.Oceanic, PlateType.Oceanic =>
      let mountain_factor := clampQ (bd / (25 / 100)) 0 1
      h * mountain_factor + (1 - mountain_factor) * (1 / 100)

/-- `0.6 + noise([v * 15]) * 1.2`, the ridge-magnitude modulator sampled at
the unwarped point with frequency 15. -/
def mountain_noise (P : Prims) (v : Vec3) : ℚ :=
  6 / 10 + P.noise (v.x * 15) (v.y * 15) (v.z * 15) * (12 / 10)

/-- Continental/continental convergent ridge: `sin(f·π)² · 0.4 · mountain_noise`. -/
def cc_ridge (P : Prims) (v : Vec3) (f : ℚ) : ℚ :=
  (P.sin (f * P.pi)) ^ 2 * (4 / 10) * mountain_noise P v

/-- Continental/oceanic convergent subduction mountains:
`sin(clamp((f-0.2)·2)·π)² · 0.3 · mountain_noise`. -/
def co_mountain (P : Prims) (v : Vec3) (f : ℚ) : ℚ :=
  (P.sin (clampQ ((f - 2 / 10) * 2) 0 1 * P.pi)) ^ 2 * (3 / 10) * mountain_noise P v

/-- Oceanic/continental convergent trench depth: `clamp(1-|f-0.5|·2) · 0.25`. -/
def oc_trench (f : ℚ) : ℚ :=
  clampQ (1 - |f - 1 / 2| * 2) 0 1 * (25 / 100)

/-- Oceanic/oceanic convergent mid-ocean ridge: `sin(f·π) · 0.2 · mountain_noise`. -/
def oo_ridge (P : Prims) (v : Vec3) (f : ℚ) : ℚ :=
  P.sin (f * P.pi) * (2 / 10) * mountain_noise P v

/-- Step 4 of the Rust code: the tectonic rule table.  Each ordered type pair
has exactly one (convergent) branch, guarded by its own dot-product
threshold; there is no divergent branch. -/
def tectonic_adjust (P : Prims) (v : Vec3) (t1 t2 : PlateType) (dot bd h : ℚ) : ℚ :=
  if bd < 45 / 100 then
    let f := clampQ (1 - bd / (45 / 100)) 0 1
    match t1, t2 with
    | PlateType.Continental, PlateType.Continental =>
        if dot < 1 / 10 then h + cc_ridge P v f else h
    | PlateType.Continental, PlateType.Oceanic =>
        if dot < 0 then h + co_mountain P v f else h
    | PlateType.Oceanic, PlateType.Continental =>
        if dot < 0 then h - oc_trench f else h
    | PlateType.Oceanic, PlateType.Oceanic =>
        if dot < -(2 / 10) then h + oo_ridge P v f else h
  else h

/-- The broad low-frequency detail noise (frequency 4). -/
def detail_noise (P : Prims) (v : Vec3) : ℚ :=
  P.noise (v.x * 4) (v.y * 4) (v.z * 4)

/-- The height `h` accumulated through steps 3–5, before the final floor. -/
def raw_height (P : Prims) (p1 p2 : Plate) (dist1 dist2 : ℚ) (v : Vec3) : ℚ :=
  tectonic_adjust P v p1.plate_type p2.plate_type
      (Vec3.dot p1.drift_dir p2.drift_dir) (dist2 - dist1)
      (shore_adjust p1.plate_type p2.plate_type (dist2 - dist1)
        (base_height p1.plate_type))
    + detail_noise P v * (35 / 100)

/-- `let final_h = h.max(-0.9);`. -/
def final_height (P : Prims) (p1 p2 : Plate) (dist1 dist2 : ℚ) (v : Vec3) : ℚ :=
  max (raw_height P p1 p2 dist1 dist2 v) (-(9 / 10))

/-! ## Biome colors -/

/-- A color as built by `Color::srgb(r, g, b)`. -/
structure ColorS where
  r : ℚ
  g : ℚ
  b : ℚ
deriving DecidableEq

def deepTrenchColor : ColorS := ⟨0, 3 / 100, 12 / 100⟩

def oceanColor : ColorS := ⟨1 / 100, 1 / 10, 3 / 10⟩

def shallowColor : ColorS := ⟨5 / 100, 25 / 100, 5 / 10⟩

def beachColor : ColorS := ⟨85 / 100, 75 / 100, 5 / 10⟩

def plainsColor : ColorS := ⟨2 / 10, 45 / 100, 15 / 100⟩

def mountainColor : ColorS := ⟨4 / 10, 35 / 100, 3 / 10⟩

def rockColor : ColorS := ⟨3 / 10, 25 / 100, 2 / 10⟩

def snowColor : ColorS := ⟨95 / 100, 95 / 100, 1⟩

/-- The `match final_h { .. }` biome band chain, in source order. -/
def colorOf (h : ℚ) : ColorS :=
  if h ≤ -(45 / 100) then deepTrenchColor
  else if h ≤ -(18 / 100) then oceanColor
  else if h < 0 then shallowColor
  else if h < 35 / 1000 then beachColor
  else if h < 18 / 100 then plainsColor
  else if h < 4 / 10 then mountainColor
  else if h < 6 / 10 then rockColor
  else snowColor

/-- A linear-space RGBA value as produced by `to_linear().to_f32_array()`. -/
structure ColorOut where
  r : ℚ
  g : ℚ
  b : ℚ
  a : ℚ
deriving DecidableEq

/-- `Color::to_linear().to_f32_array()`: per-channel srgb→linear conversion,
alpha 1. -/
def to_linear (P : Prims) (c : ColorS) : ColorOut :=
  ⟨P.s2l c.r, P.s2l c.g, P.s2l c.b, 1⟩

/-- The (height, color) pair the synthesizer produces for a point once the
two nearest plates and both distances are known. -/
structure SampleOut where
  height : ℚ
  color : ColorS
deriving DecidableEq

def samplePoint (P : Prims) (p1 p2 : Plate) (dist1 dist2 : ℚ) (v : Vec3) : SampleOut :=
  ⟨final_height P p1 p2 dist1 dist2 v, colorOf (final_height P p1 p2 dist1 dist2 v)⟩

/-- The whole per-point body of the deformation loop (after normalizing the
vertex): warp, nearest-two search, then synthesis.  The code indexes
`plates[p1_idx]` and `plates[p2_idx]` without a bounds guard; that indexing
(a panic when out of bounds) is modelled by `Option`. -/
def pointSample (P : Prims) (plates : List Plate) (v : Vec3) : Option SampleOut :=
  (plates[(nearestTwo P plates v).p1]?).bind fun p1 =>
    (plates[(nearestTwo P plates v).p2]?).map fun p2 =>
      samplePoint P p1 p2 (nearestTwo P plates v).dist1 (nearestTwo P plates v).dist2 v

/-- One vertex of the applicator loop: normalize the stored position, sample
the field, write back `v * (RADIUS + visual_h)` and the linearized color. -/
def deformPoint (P : Prims) (plates : List Plate) (pos : Vec3) : Option (Vec3 × ColorOut) :=
  (pointSample P plates (Vec3.normalize P.sqrt pos)).map fun s =>
    (Vec3.scale (RADIUS + s.height) (Vec3.normalize P.sqrt pos), to_linear P s.color)

/-- The applicator loop over every vertex, in order. -/
def deformPoints (P : Prims) (plates : List Plate) : List Vec3 → Option (List (Vec3 × ColorOut))
  | [] => some []
  | pos :: rest =>
      (deformPoint P plates pos).bind fun res =>
        (deformPoints P plates rest).map fun rs => res :: rs

/-- `apply_tectonic_deformation` on the position buffer: the new position
buffer plus the parallel color buffer. -/
def apply_tectonic_deformation (P : Prims) (plates : List Plate) (positions : List Vec3) :
    Option (List Vec3 × List ColorOut) :=
  (deformPoints P plates positions).map fun rs => (rs.map Prod.fst, rs.map Prod.snd)

/-! ## `generate_plates`

The `rand` RNG is modelled as two draw streams plus cursors: `bools` for
successive `random_bool` results and `reals` for successive
`random_range(-1.0..1.0)` results. -/

structure RngState where
  bools : Nat → Bool
  reals : Nat → ℚ
  bcur : Nat
  rcur : Nat

def random_bool (r : RngState) : Bool × RngState :=
  (r.bools r.bcur, ⟨r.bools, r.reals, r.bcur + 1, r.rcur⟩)

def random_range (r : RngState) : ℚ × RngState :=
  (r.reals r.rcur, ⟨r.bools, r.reals, r.bcur, r.rcur + 1⟩)

/-- One iteration of the `for _ in 0..NUM_PLATES` loop: draw the type, then
the three center components, then the three drift components, normalizing
both vectors. -/
def draw_plate (sq : ℚ → ℚ) (r : RngState) : Plate × RngState :=
  let tb := random_bool r
  let c1 := random_range tb.2
  let c2 := random_range c1.2
  let c3 := random_range c2.2
  let d1 := random_range c3.2
  let d2 := random_range d1.2
  let d3 := random_range d2.2
  (⟨Vec3.normalize sq ⟨c1.1, c2.1, c3.1⟩,
    if tb.1 then PlateType.Continental else PlateType.Oceanic,
    Vec3.normalize sq ⟨d1.1, d2.1, d3.1⟩⟩, d3.2)

def gen_go (sq : ℚ → ℚ) : Nat → RngState → List Plate
  | 0, _ => []
  | Nat.succ k, r => (draw_plate sq r).1 :: gen_go sq k (draw_plate sq r).2

def generate_plates (sq : ℚ → ℚ) (r : RngState) : List Plate :=
  gen_go sq NUM_PLATES r

/-- The plate that iteration `i` of `generate_plates` produces, written out
against the draw streams: type from bool draw `i`, center from range draws
`6i..6i+2`, drift from range draws `6i+3..6i+5`. -/
def plate_at (sq : ℚ → ℚ) (r : RngState) (i : Nat) : Plate :=
  ⟨Vec3.normalize sq
      ⟨r.reals (r.rcur + 6 * i), r.reals (r.rcur + 6 * i + 1), r.reals (r.rcur + 6 * i + 2)⟩,
   if r.bools (r.bcur + i) then PlateType.Continental else PlateType.Oceanic,
   Vec3.normalize sq
      ⟨r.reals (r.rcur + 6 * i + 3), r.reals (r.rcur + 6 * i + 4), r.reals (r.rcur + 6 * i + 5)⟩⟩

/-! ## Concrete instantiations of the abstract primitives, for witnesses -/

/-- All primitives trivial: `sqrt` the identity (so distances are squared
chordal distances, still a metric-monotone proxy), zero sine and noise. -/
def constPrims : Prims := ⟨fun q => q, fun _ => 0, 0, fun _ _ _ => 0, fun q => q⟩

/-- Sine constantly 1, noise 0: makes ridge shapes visible exactly. -/
def sinOnePrims : Prims := ⟨fun q => q, fun _ => 1, 0, fun _ _ _ => 0, fun q => q⟩

/-- Noise constantly -1 (the bottom of the documented noise range). -/
def negNoisePrims : Prims := ⟨fun q => q, fun _ => 1, 0, fun _ _ _ => -1, fun q => q⟩

def plateA : Plate := ⟨⟨1, 0, 0⟩, PlateType.Continental, ⟨1, 0, 0⟩⟩

def plateB : Plate := ⟨⟨4 / 5, 3 / 5, 0⟩, PlateType.Continental, ⟨0, 1, 0⟩⟩

def plateO : Plate := ⟨⟨0, 1, 0⟩, PlateType.Oceanic, ⟨0, 1, 0⟩⟩

set_option maxRecDepth 4000

/-! ## Helper lemmas about the per-point sampling and the applicator -/

theorem nearestTwo_bound (P : Prims) (plates : List Plate) (v : Vec3) (hne : plates ≠ []) :
    (nearestTwo P plates v).p1 < plates.length ∧
    (nearestTwo P plates v).p2 < plates.length := by
  have hlen : (plateDists P plates (warped_v P v)).length = plates.length := by
    simp [plateDists]
  have hne2 : plateDists P plates (warped_v P v) ≠ [] := by
    simp only [plateDists, ne_eq, List.map_eq_nil_iff]
    exact hne
  have hb := findTop2_bound (plateDists P plates (warped_v P v)) hne2
  rw [hlen] at hb
  exact hb

theorem pointSample_eq (P : Prims) (plates : List Plate) (v : Vec3) (hne : plates ≠ []) :
    ∃ (h1 : (nearestTwo P plates v).p1 < plates.length)
      (h2 : (nearestTwo P plates v).p2 < plates.length),
      pointSample P plates v =
        some (samplePoint P (plates.get ⟨(nearestTwo P plates v).p1, h1⟩)
          (plates.get ⟨(nearestTwo P plates v).p2, h2⟩)
          (nearestTwo P plates v).dist1 (nearestTwo P plates v).dist2 v) := by
  obtain ⟨h1, h2⟩ := nearestTwo_bound P plates v hne
  refine ⟨h1, h2, ?_⟩
  unfold pointSample
  rw [List.getElem?_eq_getElem h1, List.getElem?_eq_getElem h2]
  rfl

theorem deformPoint_eq (P : Prims) (plates : List Plate) (pos : Vec3) (hne : plates ≠ []) :
    ∃ s : SampleOut,
      pointSample P plates (Vec3.normalize P.sqrt pos) = some s ∧
      deformPoint P plates pos =
        some (Vec3.scale (RADIUS + s.height) (Vec3.normalize P.sqrt pos), to_linear P s.color) := by
  obtain ⟨h1, h2, he⟩ := pointSample_eq P plates (Vec3.normalize P.sqrt pos) hne
  refine ⟨_, he, ?_⟩
  unfold deformPoint
  rw [he]
  rfl

theorem deformPoints_total (P : Prims) (plates : List Plate) (hne : plates ≠ []) :
    ∀ l : List Vec3, ∃ rs, deformPoints P plates l = some rs ∧ rs.length = l.length := by
  intro l
  induction l with
  | nil => exact ⟨[], rfl, rfl⟩
  | cons pos rest ih =>
    obtain ⟨rs, hrs, hlen⟩ := ih
    obtain ⟨s, hs, hdp⟩ := deformPoint_eq P plates pos hne
    refine ⟨(Vec3.scale (RADIUS + s.height) (Vec3.normalize P.sqrt pos),
      to_linear P s.color) :: rs, ?_, by simp [hlen]⟩
    show (deformPoint P plates pos).bind _ = _
    rw [hdp, hrs]
    rfl

theorem deformPoints_get (P : Prims) (plates : List Plate) :
    ∀ (l : List Vec3) (rs : List (Vec3 × ColorOut)),
      deformPoints P plates l = some rs →
      ∀ i : Nat, (l[i]?).bind (deformPoint P plates) = rs[i]? := by
  intro l
  induction l with
  | nil =>
    intro rs h i
    have hrs : rs = [] := by
      have h2 : some ([] : List (Vec3 × ColorOut)) = some rs := h
      injection h2 with h3
      exact h3.symm
    subst hrs
    simp
  | cons pos rest ih =>
    intro rs h i
    have h2 : (deformPoint P plates pos).bind
        (fun res => (deformPoints P plates rest).map fun rs2 => res :: rs2) = some rs := h
    rw [Option.bind_eq_some] at h2
    obtain ⟨res, hres, hmap⟩ := h2
    rw [Option.map_eq_some'] at hmap
    obtain ⟨rs2, hrs2, heq⟩ := hmap
    subst heq
    cases i with
    | zero =>
      simp [hres]
    | succ k =>
      simp only [List.getElem?_cons_succ]
      exact ih rs2 hrs2 k

/-! ## Helper lemmas about `generate_plates` -/

theorem plate_at_shift (sq : ℚ → ℚ) (bs : Nat → Bool) (rls : Nat → ℚ) (bc rc i : Nat) :
    plate_at sq ⟨bs, rls, bc + 1, rc + 6⟩ i = plate_at sq ⟨bs, rls, bc, rc⟩ (i + 1) := by
  have a1 : rc + 6 + 6 * i = rc + 6 * (i + 1) := by ring
  have a7 : bc + 1 + i = bc + (i + 1) := by omega
  unfold plate_at
  simp only
  rw [a1, a7]

theorem gen_go_eq (sq : ℚ → ℚ) :
    ∀ (n : Nat) (r : RngState), gen_go sq n r = (List.range n).map (plate_at sq r) := by
  intro n
  induction n with
  | zero => intro r; rfl
  | succ k ih =>
    intro r
    have e1 : gen_go sq (k + 1) r =
        plate_at sq r 0 :: gen_go sq k ⟨r.bools, r.reals, r.bcur + 1, r.rcur + 6⟩ := rfl
    rw [e1, ih ⟨r.bools, r.reals, r.bcur + 1, r.rcur + 6⟩, List.range_succ_eq_map,
      List.map_cons, List.map_map]
    congr 1
    apply List.map_congr_left
    intro i _
    have e2 : plate_at sq ⟨r.bools, r.reals, r.bcur + 1, r.rcur + 6⟩ i =
        plate_at sq ⟨r.bools, r.reals, r.bcur, r.rcur⟩ (i + 1) :=
      plate_at_shift sq r.bools r.reals r.bcur r.rcur i
    exact e2

/-! ## Claim C1: two-nearest-plate partition -/

/-- **C1, counterexample to the claim as stated.**  The claim quantifies over
every non-empty plate set, but with a single plate the loop never writes
`dist_2` or `p2_idx`, so `dist_2` stays `f32::MAX` while
`distance(warped_v, center(p2))` is the distance to the sole plate (here 0):
the claimed equality `dist_2 = distance(warped_v, center(p2))` fails. -/
theorem two_nearest_partition_cx :
    (nearestTwo constPrims [plateA] ⟨1, 0, 0⟩).p2 = 0 ∧
    (nearestTwo constPrims [plateA] ⟨1, 0, 0⟩).dist2 = f32MAX ∧
    Vec3.dist constPrims.sqrt (warped_v constPrims ⟨1, 0, 0⟩)
      (([plateA].getD (nearestTwo constPrims [plateA] ⟨1, 0, 0⟩).p2 plateA).center) = 0 ∧
    (nearestTwo constPrims [plateA] ⟨1, 0, 0⟩).dist2 ≠
      Vec3.dist constPrims.sqrt (warped_v constPrims ⟨1, 0, 0⟩)
        (([plateA].getD (nearestTwo constPrims [plateA] ⟨1, 0, 0⟩).p2 plateA).center) :=
  ⟨by with_unfolding_all decide, by with_unfolding_all rfl,
   by with_unfolding_all decide, by with_unfolding_all decide⟩

/-- **C1 (amended: for plate sets with at least two plates, all true
distances being below `f32::MAX`).**  The single linear top-2 pass over the
plates returns two distinct in-range indices `p1, p2` with
`dist_1 = distance(warped_v, center(p1)) ≤ dist_2 = distance(warped_v,
center(p2)) ≤ distance(warped_v, center(q))` for every other plate `q`,
where `warped_v` is `v` offset by the three cyclically-permuted noise
samples times the warp strength and renormalized. -/
theorem two_nearest_partition (P : Prims) (plates : List Plate) (v : Vec3)
    (hlen : 2 ≤ plates.length)
    (hfin : ∀ j, ∀ hj : j < plates.length,
      Vec3.dist P.sqrt (warped_v P v) ((plates.get ⟨j, hj⟩).center) < f32MAX) :
    ∃ (h1 : (nearestTwo P plates v).p1 < plates.length)
      (h2 : (nearestTwo P plates v).p2 < plates.length),
      (nearestTwo P plates v).p1 ≠ (nearestTwo P plates v).p2 ∧
      (nearestTwo P plates v).dist1 =
        Vec3.dist P.sqrt (warped_v P v)
          ((plates.get ⟨(nearestTwo P plates v).p1, h1⟩).center) ∧
      (nearestTwo P plates v).dist2 =
        Vec3.dist P.sqrt (warped_v P v)
          ((plates.get ⟨(nearestTwo P plates v).p2, h2⟩).center) ∧
      (nearestTwo P plates v).dist1 ≤ (nearestTwo P plates v).dist2 ∧
      ∀ q, ∀ hq : q < plates.length, q ≠ (nearestTwo P plates v).p1 →
        q ≠ (nearestTwo P plates v).p2 →
        (nearestTwo P plates v).dist2 ≤
          Vec3.dist P.sqrt (warped_v P v) ((plates.get ⟨q, hq⟩).center) := by
  unfold nearestTwo
  have lds : (plateDists P plates (warped_v P v)).length = plates.length := by
    simp [plateDists]
  have hget : ∀ j, ∀ hj : j < (plateDists P plates (warped_v P v)).length,
      ∀ hj2 : j < plates.length,
      (plateDists P plates (warped_v P v)).get ⟨j, hj⟩ =
        Vec3.dist P.sqrt (warped_v P v) ((plates.get ⟨j, hj2⟩).center) := by
    intro j hj hj2
    simp [plateDists, List.get_eq_getElem]
  have hlen2 : 2 ≤ (plateDists P plates (warped_v P v)).length := by
    rw [lds]; exact hlen
  have hlt : ∀ j, ∀ hj : j < (plateDists P plates (warped_v P v)).length,
      (plateDists P plates (warped_v P v)).get ⟨j, hj⟩ < f32MAX := by
    intro j hj
    have hj2 : j < plates.length := by rw [← lds]; exact hj
    rw [hget j hj hj2]
    exact hfin j hj2
  obtain ⟨g1, g2, g3, g4, g5, g6, g7⟩ := findTop2_good _ hlen2 hlt
  have h1 : (findTop2 (plateDists P plates (warped_v P v))).p1 < plates.length := by
    rw [← lds]; exact g1
  have h2 : (findTop2 (plateDists P plates (warped_v P v))).p2 < plates.length := by
    rw [← lds]; exact g2
  have h1d : (findTop2 (plateDists P plates (warped_v P v))).p1 <
      (plateDists P plates (warped_v P v)).length := by
    rw [lds]; exact h1
  have h2d : (findTop2 (plateDists P plates (warped_v P v))).p2 <
      (plateDists P plates (warped_v P v)).length := by
    rw [lds]; exact h2
  refine ⟨h1, h2, g3, ?_, ?_, g6, ?_⟩
  · rw [← hget _ h1d h1]
    exact g4 h1d
  · rw [← hget _ h2d h2]
    exact g5 h2d
  · intro q hq hne1 hne2
    have hqd : q < (plateDists P plates (warped_v P v)).length := by
      rw [lds]; exact hq
    rw [← hget q hqd hq]
    refine g7 q hqd ?_ hne1 hne2
    rw [lds]; exact hq

/-- **C1 witness**: the partition theorem applied to a concrete two-plate
set and query point. -/
theorem two_nearest_partition_witness :
    (nearestTwo constPrims [plateA, plateO] ⟨1, 0, 0⟩).dist1 ≤
      (nearestTwo constPrims [plateA, plateO] ⟨1, 0, 0⟩).dist2 := by
  obtain ⟨h1, h2, hne, hd1, hd2, hle, hmin⟩ :=
    two_nearest_partition constPrims [plateA, plateO] ⟨1, 0, 0⟩ (by decide)
      (by with_unfolding_all decide)
  exact hle

/-! ## Claim C2: plate separation -/

/-- An RNG whose streams are constant: every `random_bool` yields `true` and
every `random_range` yields `1/2`. -/
def constRng : RngState := ⟨fun _ => true, fun _ => 1 / 2, 0, 0⟩

/-- **C2, counterexample to the claim as stated.**  `generate_plates`
performs no rejection sampling: under an RNG stream that repeats the same
values, two distinct plates (indices 0 and 1) receive identical centers, so
their distance is 0, violating `distance(center_i, center_j) ≥ minSeparation`
for every positive threshold. -/
theorem plate_separation_cx :
    ((generate_plates (fun q => q) constRng).getD 0 plateA).center =
      ((generate_plates (fun q => q) constRng).getD 1 plateA).center ∧
    Vec3.dist (fun q => q)
      (((generate_plates (fun q => q) constRng).getD 0 plateA).center)
      (((generate_plates (fun q => q) constRng).getD 1 plateA).center) = 0 ∧
    (generate_plates (fun q => q) constRng).length = NUM_PLATES := by
  with_unfolding_all decide

/-- **C2 (corrected).**  `generate_plates` draws exactly `NUM_PLATES` plates
with no separation test and no redraw: plate `i` is built directly from bool
draw `i` (its type) and range draws `6i..6i+5` (normalized center, then
normalized drift), whatever the distances between the resulting centers are.
No minimum-separation invariant holds. -/
theorem generate_plates_characterized (sq : ℚ → ℚ) (r : RngState) :
    generate_plates sq r = (List.range NUM_PLATES).map (plate_at sq r) ∧
    (generate_plates sq r).length = NUM_PLATES := by
  have h := gen_go_eq sq NUM_PLATES r
  refine ⟨h, ?_⟩
  show (gen_go sq NUM_PLATES r).length = NUM_PLATES
  rw [h]
  simp

/-! ## Claim C3: the interaction rule table -/

/-- The dot-product threshold under which the (sole, convergent) branch of
each ordered type pair fires: `0.1` for continental/continental, `0` for the
two mixed pairs, `-0.2` for oceanic/oceanic. -/
def pair_threshold : PlateType → PlateType → ℚ
  | PlateType.Continental, PlateType.Continental => 1 / 10
  | PlateType.Continental, PlateType.Oceanic => 0
  | PlateType.Oceanic, PlateType.Continental => 0
  | PlateType.Oceanic, PlateType.Oceanic => -(2 / 10)

/-- The signed height contribution of the convergent branch of each ordered
type pair (the oceanic/continental trench is subtracted). -/
def feature_term (P : Prims) (v : Vec3) (t1 t2 : PlateType) (f : ℚ) : ℚ :=
  match t1, t2 with
  | PlateType.Continental, PlateType.Continental => cc_ridge P v f
  | PlateType.Continental, PlateType.Oceanic => co_mountain P v f
  | PlateType.Oceanic, PlateType.Continental => -(oc_trench f)
  | PlateType.Oceanic, PlateType.Oceanic => oo_ridge P v f

/-- **C3, counterexample to the claim as stated.**  Two continental plates
whose drift dot product is 0 — inside the claimed symmetric dead zone
(-0.2, +0.2), where no feature should be applied — still receive the
convergent ridge: the synthesized height (9/25) differs from the height with
no tectonic feature (base + shore + detail, clamped). -/
theorem dead_zone_cx :
    Vec3.dot plateA.drift_dir plateB.drift_dir = 0 ∧
    -(2 / 10) < (0 : ℚ) ∧ (0 : ℚ) < 2 / 10 ∧
    (pointSample sinOnePrims [plateA, plateB] ⟨1, 0, 0⟩).map SampleOut.height =
      some (9 / 25) ∧
    (9 / 25 : ℚ) ≠
      max (shore_adjust plateA.plate_type plateB.plate_type
          ((nearestTwo sinOnePrims [plateA, plateB] ⟨1, 0, 0⟩).dist2 -
            (nearestTwo sinOnePrims [plateA, plateB] ⟨1, 0, 0⟩).dist1)
          (base_height plateA.plate_type)
        + detail_noise sinOnePrims ⟨1, 0, 0⟩ * (35 / 100)) (-(9 / 10)) := by
  with_unfolding_all decide

/-- **C3 (corrected).**  The rule table has no divergent branches and no
symmetric dead zone: within the boundary influence zone each ordered type
pair applies its single convergent feature exactly when
`dot < pair_threshold` (0.1 for C/C, 0 for C/O and O/C, -0.2 for O/O), and
otherwise — in particular for every dot product at or above that pair's
threshold — the height is just base + shore blend + detail noise, clamped. -/
theorem rule_table_single_branch (P : Prims) (v : Vec3) (p1 p2 : Plate)
    (dist1 dist2 : ℚ) :
    (samplePoint P p1 p2 dist1 dist2 v).height =
      if dist2 - dist1 < 45 / 100 ∧
          Vec3.dot p1.drift_dir p2.drift_dir <
            pair_threshold p1.plate_type p2.plate_type then
        max (shore_adjust p1.plate_type p2.plate_type (dist2 - dist1)
            (base_height p1.plate_type)
          + feature_term P v p1.plate_type p2.plate_type
              (clampQ (1 - (dist2 - dist1) / (45 / 100)) 0 1)
          + detail_noise P v * (35 / 100)) (-(9 / 10))
      else
        max (shore_adjust p1.plate_type p2.plate_type (dist2 - dist1)
            (base_height p1.plate_type)
          + detail_noise P v * (35 / 100)) (-(9 / 10)) := by
  obtain ⟨c1, t1, d1⟩ := p1
  obtain ⟨c2, t2, d2⟩ := p2
  unfold samplePoint final_height raw_height tectonic_adjust feature_term pair_threshold
  cases t1 <;> cases t2 <;> dsimp only <;> split_ifs <;>
    first
      | rfl
      | tauto
      | rw [sub_eq_add_neg]

/-! ## Claim C4: determinism / position-only dependence -/

/-- **C4 (confirmed).**  For a fixed plate set and noise source, the output
of the deformation pass at an index depends only on the input coordinate at
that index — never on the surrounding chunk: whenever two (possibly
different) position buffers carry the same coordinate at positions `i` and
`j`, both completed passes store equal displaced positions and equal colors
there.  (Determinism of two runs on equal inputs is the special case
`l1 = l2, i = j`; the synthesis is a pure function of the plate set, the
noise source and the point.) -/
theorem chunk_independence (P : Prims) (plates : List Plate)
    (l1 l2 : List Vec3) (r1 r2 : List Vec3 × List ColorOut) (i j : Nat)
    (h1 : apply_tectonic_deformation P plates l1 = some r1)
    (h2 : apply_tectonic_deformation P plates l2 = some r2)
    (hij : l1[i]? = l2[j]?) :
    r1.1[i]? = r2.1[j]? ∧ r1.2[i]? = r2.2[j]? := by
  unfold apply_tectonic_deformation at h1 h2
  rw [Option.map_eq_some'] at h1 h2
  obtain ⟨rs1, hrs1, he1⟩ := h1
  obtain ⟨rs2, hrs2, he2⟩ := h2
  subst he1
  subst he2
  have g1 := deformPoints_get P plates l1 rs1 hrs1 i
  have g2 := deformPoints_get P plates l2 rs2 hrs2 j
  have hrs : rs1[i]? = rs2[j]? := by
    rw [← g1, ← g2, hij]
  constructor
  · show (rs1.map Prod.fst)[i]? = (rs2.map Prod.fst)[j]?
    rw [List.getElem?_map, List.getElem?_map, hrs]
  · show (rs1.map Prod.snd)[i]? = (rs2.map Prod.snd)[j]?
    rw [List.getElem?_map, List.getElem?_map, hrs]

/-- **C4 witness**: the same input coordinate at index 0 of a one-vertex
buffer and index 1 of a two-vertex buffer yields identical outputs. -/
theorem chunk_independence_witness :
    ([⟨(753 : ℚ) / 25, 0, 0⟩] : List Vec3)[0]? =
      ([⟨0, 0, 753 / 25⟩, ⟨753 / 25, 0, 0⟩] : List Vec3)[1]? ∧
    ([⟨(2 : ℚ) / 10, 45 / 100, 15 / 100, 1⟩] : List ColorOut)[0]? =
      ([⟨(2 : ℚ) / 10, 45 / 100, 15 / 100, 1⟩,
        ⟨2 / 10, 45 / 100, 15 / 100, 1⟩] : List ColorOut)[1]? := by
  have h := chunk_independence constPrims [plateA] [⟨1, 0, 0⟩] [⟨0, 0, 1⟩, ⟨1, 0, 0⟩]
    ([⟨753 / 25, 0, 0⟩], [⟨2 / 10, 45 / 100, 15 / 100, 1⟩])
    ([⟨0, 0, 753 / 25⟩, ⟨753 / 25, 0, 0⟩],
      [⟨2 / 10, 45 / 100, 15 / 100, 1⟩, ⟨2 / 10, 45 / 100, 15 / 100, 1⟩]) 0 1
    (by with_unfolding_all decide) (by with_unfolding_all decide)
    (by with_unfolding_all decide)
  exact h

/-! ## Claim C5: height floor -/

/-- **C5 (confirmed).**  Whatever the plates, distances, noise and query
point, the final height after the clamping step `h.max(-0.9)` is at least
-0.9. -/
theorem height_floor (P : Prims) (p1 p2 : Plate) (dist1 dist2 : ℚ) (v : Vec3) :
    -(9 / 10) ≤ (samplePoint P p1 p2 dist1 dist2 v).height :=
  le_max_right (raw_height P p1 p2 dist1 dist2 v) (-(9 / 10))

/-! ## Claim C6: biome banding -/

/-- Modelled from the spec: the band-selection rule exactly as the spec
words it — "selecting the first band whose upper bound exceeds the height",
i.e. a strict comparison at every threshold.  Defined only to be compared
against the code's `colorOf`. -/
def spec_band_color (h : ℚ) : ColorS :=
  if h < -(45 / 100) then deepTrenchColor
  else if h < -(18 / 100) then oceanColor
  else if h < 0 then shallowColor
  else if h < 35 / 1000 then beachColor
  else if h < 18 / 100 then plainsColor
  else if h < 4 / 10 then mountainColor
  else if h < 6 / 10 then rockColor
  else snowColor

/-- **C6, counterexample to the claim as stated.**  At height exactly -0.45
the code selects the deep-trench color (its first two bands use `<=`), while
the first band whose upper bound *exceeds* -0.45 is the ocean band: the
claimed selection rule disagrees with the code at the band edges. -/
theorem biome_banding_cx :
    colorOf (-(45 / 100)) = deepTrenchColor ∧
    spec_band_color (-(45 / 100)) = oceanColor ∧
    deepTrenchColor ≠ oceanColor := by
  with_unfolding_all decide

/-- **C6 (amended: the first two band comparisons are non-strict).**  Color
is a function solely of the final height through ascending bands: heights up
to and including -0.45 give deep trench, then ocean up to and including
-0.18, then strict upper bounds 0, 0.035, 0.18, 0.4, 0.6 for shallow water,
beach, plains, mountains and high rock, and every height at or above 0.6
gives the snow catch-all; the synthesized color is exactly `colorOf` of the
synthesized height. -/
theorem biome_banding (h : ℚ) :
    (h ≤ -(45 / 100) → colorOf h = deepTrenchColor) ∧
    (-(45 / 100) < h → h ≤ -(18 / 100) → colorOf h = oceanColor) ∧
    (-(18 / 100) < h → h < 0 → colorOf h = shallowColor) ∧
    (0 ≤ h → h < 35 / 1000 → colorOf h = beachColor) ∧
    (35 / 1000 ≤ h → h < 18 / 100 → colorOf h = plainsColor) ∧
    (18 / 100 ≤ h → h < 4 / 10 → colorOf h = mountainColor) ∧
    (4 / 10 ≤ h → h < 6 / 10 → colorOf h = rockColor) ∧
    (6 / 10 ≤ h → colorOf h = snowColor) ∧
    (∀ (P : Prims) (p1 p2 : Plate) (dist1 dist2 : ℚ) (v : Vec3),
      (samplePoint P p1 p2 dist1 dist2 v).color =
        colorOf ((samplePoint P p1 p2 dist1 dist2 v).height)) := by
  refine ⟨?_, ?_, ?_, ?_, ?_, ?_, ?_, ?_, fun P p1 p2 dist1 dist2 v => rfl⟩ <;>
    (intro ha
     try intro hb) <;>
    (unfold colorOf
     split_ifs <;> first | rfl | linarith)

/-- **C6 witness**: the band theorem applied at the extreme heights -1
and 1. -/
theorem biome_banding_witness :
    colorOf (-1) = deepTrenchColor ∧ colorOf 1 = snowColor := by
  constructor
  · exact (biome_banding (-1)).1 (by with_unfolding_all decide)
  · exact (biome_banding 1).2.2.2.2.2.2.2.1 (by with_unfolding_all decide)

/-! ## Claim C7: ridge modulation -/

/-- **C7, counterexample to the claim as stated.**  The noise value -1 lies
in the documented output range [-1, 1], yet the modulator
`0.6 + noise * 1.2` evaluates to -0.6 < 0, and the convergent
continental/continental ridge contribution becomes negative (a canyon). -/
theorem ridge_modulation_cx :
    -(1 : ℚ) ≤ negNoisePrims.noise 15 0 0 ∧ negNoisePrims.noise 15 0 0 ≤ 1 ∧
    mountain_noise negNoisePrims ⟨1, 0, 0⟩ = -(6 / 10) ∧
    mountain_noise negNoisePrims ⟨1, 0, 0⟩ < 0 ∧
    cc_ridge negNoisePrims ⟨1, 0, 0⟩ (1 / 2) < 0 := by
  with_unfolding_all decide

/-- **C7 (amended: the modulator is non-negative only for noise samples
≥ -0.5).**  When the high-frequency noise sample at the unwarped point is at
least -0.5, the modulator `0.6 + noise·1.2` is non-negative, and then every
convergent ridge/mountain contribution is non-negative: the C/C and C/O
terms are squared sines times non-negative factors, and the O/O term
`sin(f·π)·0.2·modulator` is non-negative for `f ∈ [0, 1]` whenever the sine
primitive is non-negative on `[0, π]`. -/
theorem ridge_modulation_nonneg (P : Prims) (v : Vec3) (f : ℚ)
    (hn : -(1 / 2) ≤ P.noise (v.x * 15) (v.y * 15) (v.z * 15))
    (hs : ∀ q : ℚ, 0 ≤ q → q ≤ P.pi → 0 ≤ P.sin q)
    (hp : 0 ≤ P.pi) (hf0 : 0 ≤ f) (hf1 : f ≤ 1) :
    0 ≤ mountain_noise P v ∧ 0 ≤ cc_ridge P v f ∧ 0 ≤ co_mountain P v f ∧
    0 ≤ oo_ridge P v f := by
  have hmn : 0 ≤ mountain_noise P v := by
    unfold mountain_noise
    linarith
  refine ⟨hmn, ?_, ?_, ?_⟩
  · unfold cc_ridge
    have hsq : 0 ≤ (P.sin (f * P.pi)) ^ 2 := sq_nonneg _
    positivity
  · unfold co_mountain
    have hsq : 0 ≤ (P.sin (clampQ ((f - 2 / 10) * 2) 0 1 * P.pi)) ^ 2 := sq_nonneg _
    positivity
  · unfold oo_ridge
    have harg0 : 0 ≤ f * P.pi := mul_nonneg hf0 hp
    have harg1 : f * P.pi ≤ P.pi := by
      calc f * P.pi ≤ 1 * P.pi := by
            exact mul_le_mul_of_nonneg_right hf1 hp
        _ = P.pi := one_mul P.pi
    have hsin : 0 ≤ P.sin (f * P.pi) := hs (f * P.pi) harg0 harg1
    positivity

/-- **C7 witness**: the amended modulation bound at concrete primitives
(noise 0, sine 0, π = 0) and `f = 1/2`. -/
theorem ridge_modulation_nonneg_witness :
    0 ≤ mountain_noise constPrims ⟨1, 0, 0⟩ ∧
    0 ≤ cc_ridge constPrims ⟨1, 0, 0⟩ (1 / 2) ∧
    0 ≤ co_mountain constPrims ⟨1, 0, 0⟩ (1 / 2) ∧
    0 ≤ oo_ridge constPrims ⟨1, 0, 0⟩ (1 / 2) :=
  ridge_modulation_nonneg constPrims ⟨1, 0, 0⟩ (1 / 2)
    (by with_unfolding_all decide)
    (fun q h1 h2 => le_refl 0)
    (le_refl 0)
    (by with_unfolding_all decide)
    (by with_unfolding_all decide)

/-! ## Claim C8: field-applicator write-back and buffer alignment -/

/-- **C8 (confirmed, for a non-empty plate set — the pass panics on an empty
one, see C10).**  The completed pass replaces every vertex of the position
buffer by `direction * (RADIUS + height)` where `direction` is its
normalized original position, and appends exactly one color per vertex in
the same index order; both output buffers have exactly the input buffer's
length. -/
theorem field_applicator (P : Prims) (plates : List Plate) (positions : List Vec3)
    (hne : plates ≠ []) :
    ∃ res : List Vec3 × List ColorOut,
      apply_tectonic_deformation P plates positions = some res ∧
      res.1.length = positions.length ∧
      res.2.length = positions.length ∧
      ∀ i, ∀ hi : i < positions.length, ∃ s : SampleOut,
        pointSample P plates (Vec3.normalize P.sqrt (positions.get ⟨i, hi⟩)) = some s ∧
        res.1[i]? = some (Vec3.scale (RADIUS + s.height)
          (Vec3.normalize P.sqrt (positions.get ⟨i, hi⟩))) ∧
        res.2[i]? = some (to_linear P s.color) := by
  obtain ⟨rs, hrs, hlen⟩ := deformPoints_total P plates hne positions
  refine ⟨(rs.map Prod.fst, rs.map Prod.snd), ?_, by simp [hlen], by simp [hlen], ?_⟩
  · unfold apply_tectonic_deformation
    rw [hrs]
    rfl
  · intro i hi
    obtain ⟨s, hs, hdp⟩ := deformPoint_eq P plates (positions.get ⟨i, hi⟩) hne
    have hg := deformPoints_get P plates positions rs hrs i
    have hpos : positions[i]? = some (positions.get ⟨i, hi⟩) := by
      rw [List.getElem?_eq_getElem hi]
      rfl
    rw [hpos] at hg
    have hg2 : rs[i]? = some (Vec3.scale (RADIUS + s.height)
        (Vec3.normalize P.sqrt (positions.get ⟨i, hi⟩)), to_linear P s.color) := by
      rw [← hg]
      exact hdp
    refine ⟨s, hs, ?_, ?_⟩
    · show (rs.map Prod.fst)[i]? = _
      rw [List.getElem?_map, hg2]
      rfl
    · show (rs.map Prod.snd)[i]? = _
      rw [List.getElem?_map, hg2]
      rfl

/-- **C8 witness**: the applicator theorem applied to a concrete plate set
and buffer. -/
theorem field_applicator_witness :
    (apply_tectonic_deformation constPrims [plateA] [⟨1, 0, 0⟩]).isSome = true := by
  obtain ⟨res, hres, h1, h2, h3⟩ :=
    field_applicator constPrims [plateA] [⟨1, 0, 0⟩] (by decide)
  rw [hres]
  rfl

/-! ## Claim C9: single-plate edge case -/

/-- **C9 (confirmed).**  With exactly one plate the pass is well defined and
cannot panic: the loop records the sole plate as nearest with its true
distance, `dist_2` stays `f32::MAX` with `p2_idx = 0`, both plate lookups
succeed (they return the same plate), and the synthesizer produces the
ordinary height and color for that configuration. -/
theorem single_plate_defined (P : Prims) (p : Plate) (v : Vec3)
    (hd : Vec3.dist P.sqrt (warped_v P v) p.center < f32MAX) :
    pointSample P [p] v =
      some (samplePoint P p p
        (Vec3.dist P.sqrt (warped_v P v) p.center) f32MAX v) := by
  have e1 : nearestTwo P [p] v =
      ⟨Vec3.dist P.sqrt (warped_v P v) p.center, f32MAX, 0, 0⟩ := by
    show top2Step ⟨f32MAX, f32MAX, 0, 0⟩ 0 (Vec3.dist P.sqrt (warped_v P v) p.center) = _
    unfold top2Step
    rw [if_pos hd]
  unfold pointSample
  rw [e1]
  rfl

/-- **C9 witness**: the single-plate theorem at a concrete plate and query
point (distance 0 to the sole plate's center). -/
theorem single_plate_defined_witness :
    pointSample constPrims [plateA] ⟨1, 0, 0⟩ =
      some (samplePoint constPrims plateA plateA
        (Vec3.dist constPrims.sqrt (warped_v constPrims ⟨1, 0, 0⟩) plateA.center)
        f32MAX ⟨1, 0, 0⟩) :=
  single_plate_defined constPrims plateA ⟨1, 0, 0⟩ (by with_unfolding_all decide)

/-! ## Claim C10: empty plate set -/

/-- **C10 (confirmed).**  On an empty plate slice the search loop never
runs, so the state keeps `dist_1 = dist_2 = f32::MAX` and
`p1_idx = p2_idx = 0`, and the subsequent indexing panics (modelled as
`none`); on any non-empty plate slice both recorded indices are in range and
the per-point pass is total. -/
theorem empty_plate_panic (P : Prims) (plates : List Plate) (v : Vec3) :
    findTop2 (plateDists P [] (warped_v P v)) = ⟨f32MAX, f32MAX, 0, 0⟩ ∧
    pointSample P [] v = none ∧
    (plates ≠ [] →
      (nearestTwo P plates v).p1 < plates.length ∧
      (nearestTwo P plates v).p2 < plates.length ∧
      (pointSample P plates v).isSome = true) := by
  refine ⟨rfl, rfl, ?_⟩
  intro hne
  obtain ⟨h1, h2⟩ := nearestTwo_bound P plates v hne
  refine ⟨h1, h2, ?_⟩
  obtain ⟨g1, g2, he⟩ := pointSample_eq P plates v hne
  rw [he]
  rfl

/-- **C10 witness**: the empty/non-empty dichotomy at a concrete plate set
and query point. -/
theorem empty_plate_panic_witness :
    pointSample constPrims [] ⟨0, 1, 0⟩ = none ∧
    (pointSample constPrims [plateO] ⟨0, 1, 0⟩).isSome = true := by
  have h := empty_plate_panic constPrims [plateO] ⟨0, 1, 0⟩
  exact ⟨h.2.1, (h.2.2 (List.cons_ne_nil plateO [])).2.2⟩

end PlanetSim
